import Mathlib

/-!
Verification of the Document Version & Annotation Pipeline backend.

The repository ships its data-model and service documentation (setup notes,
testing guide, ORM issue report, SQL migration) together with the Next.js
middleware and frontend sources; the Python service layer itself is not part
of the source tree.  The service operations are therefore modelled from the
specification, while the middleware, the FileStatus enum, the partial unique
index and the llm_params metadata update are embedded from the sources
directly.

Entity stores are lists of records; identifiers are drawn from a fresh
counter held in the state.  Fallible operations return Except.
-/

namespace Pipeline

/-- Error taxonomy of the service layer (spec section 7). -/
inductive Err
  | conflict
  | precondition
  | invalidState
  | notFound
deriving DecidableEq, Repr

/-- Modelled from the spec: File.status value set of the idealised state
machine (the missing service layer's file states). -/
inductive SpecFileStatus
  | pending
  | processing
  | completed
  | failed
deriving DecidableEq, Repr

/-- AnnotationJob status values (also declared in the setup notes). -/
inductive JobStatus
  | not_started
  | in_progress
  | submitted
  | reviewed
deriving DecidableEq, Repr

/-- Review status values (also declared in the setup notes). -/
inductive ReviewStatus
  | pending
  | approved
  | rejected
deriving DecidableEq, Repr

/-- Review decision passed to the review operation. -/
inductive ReviewDecision
  | approved
  | rejected
deriving DecidableEq, Repr

/-- ExportLog status values. -/
inductive ExportStatus
  | pending
  | processing
  | completed
  | failed
deriving DecidableEq, Repr

/-- A File row: belongs to a project, soft-deletable, carries the status and
the active-version pointer. -/
structure FileRec where
  id : Nat
  project_id : Nat
  name : String
  status : SpecFileStatus
  active_version_id : Option Nat
  deleted_at : Option Nat
  failure_reason : Option String
deriving DecidableEq, Repr

/-- A FileVersion row.  The extraction metadata lives in the generic
llm_params bag exactly as the backend stores it (testing guide, lines
356-368: page_count and table_count are keys of llm_params). -/
structure VersionRec where
  id : Nat
  file_id : Nat
  version_number : Nat
  storage_pointer : Nat
  llm_params : List (String × Nat)
deriving DecidableEq, Repr

/-- A FileTable row derived from one extracted table. -/
structure TableRec where
  id : Nat
  version_id : Nat
  page_number : Nat
  table_index : Nat
  headers : List (List String)
  rows : List (List String)
deriving DecidableEq, Repr

/-- An AnnotationJob row. -/
structure JobRec where
  id : Nat
  project_id : Nat
  table_id : Nat
  status : JobStatus
  revision_count : Nat
  deleted : Bool
deriving DecidableEq, Repr

/-- A Review row. -/
structure ReviewRec where
  id : Nat
  job_id : Nat
  reviewer_id : Nat
  status : ReviewStatus
  comment : String
deriving DecidableEq, Repr

/-- An ExportLog row. -/
structure ExportLogRec where
  id : Nat
  project_id : Nat
  format : String
  status : ExportStatus
deriving DecidableEq, Repr

/-- An ExportedFile join row: the point-in-time snapshot entry. -/
structure ExportedFileRec where
  export_id : Nat
  file_version_id : Nat
deriving DecidableEq, Repr

/-- The database state: one list per entity plus a fresh-id counter.  The
events list is the append-only EventLog (operation name, entity id). -/
structure St where
  files : List FileRec
  versions : List VersionRec
  tables : List TableRec
  jobs : List JobRec
  reviews : List ReviewRec
  exports : List ExportLogRec
  exported_files : List ExportedFileRec
  events : List (String × Nat)
  nextId : Nat
deriving DecidableEq, Repr

/-- Look a file up by id. -/
def findFile (s : St) (fid : Nat) : Option FileRec :=
  s.files.find? (fun f => f.id == fid)

/-- Look a job up by id. -/
def findJob (s : St) (jid : Nat) : Option JobRec :=
  s.jobs.find? (fun j => j.id == jid)

/-- Look a version up by id. -/
def findVersion (s : St) (vid : Nat) : Option VersionRec :=
  s.versions.find? (fun v => v.id == vid)

/-- Uniqueness scope of (project_id, name): only rows with deleted_at null
count, embedding the partial unique index uq_project_file_name_active of
migration 001 (WHERE deleted_at IS NULL). -/
def hasActiveName (s : St) (pid : Nat) (nm : String) : Bool :=
  s.files.any (fun f => f.project_id == pid && f.name == nm && f.deleted_at.isNone)

/-- Update every file row carrying the given id. -/
def updFile (fid : Nat) (g : FileRec → FileRec) (l : List FileRec) : List FileRec :=
  l.map (fun f => if f.id == fid then g f else f)

/-- Update every version row carrying the given id. -/
def updVersion (vid : Nat) (g : VersionRec → VersionRec) (l : List VersionRec) : List VersionRec :=
  l.map (fun v => if v.id == vid then g v else v)

/-- Update every job row carrying the given id. -/
def updJob (jid : Nat) (g : JobRec → JobRec) (l : List JobRec) : List JobRec :=
  l.map (fun j => if j.id == jid then g j else j)

/-- Modelled from the spec: createFile of the missing FileRegistry.  Fails
with ConflictError when an active file of the same name exists in the
project; otherwise creates the File (status pending) together with version
number 1 and points active_version_id at it. -/
def createFile (s : St) (pid : Nat) (nm : String) (content : Nat) : Except Err St :=
  if hasActiveName s pid nm then .error .conflict
  else
    let fileId := s.nextId
    let verId := s.nextId + 1
    let f : FileRec :=
      { id := fileId, project_id := pid, name := nm, status := SpecFileStatus.pending,
        active_version_id := some verId, deleted_at := none, failure_reason := none }
    let v : VersionRec :=
      { id := verId, file_id := fileId, version_number := 1,
        storage_pointer := content, llm_params := [] }
    .ok { s with
          files := s.files ++ [f],
          versions := s.versions ++ [v],
          events := s.events ++ [("file.create", fileId)],
          nextId := s.nextId + 2 }

/-- Largest version number already attached to a file. -/
def maxVersionNumber (s : St) (fid : Nat) : Nat :=
  (s.versions.filter (fun v => v.file_id == fid)).foldr (fun v acc => max v.version_number acc) 0

/-- Modelled from the spec: replaceFile of the missing FileRegistry.
Creates version max+1, makes it active and resets the file to pending. -/
def replaceFile (s : St) (fid : Nat) (content : Nat) : Except Err St :=
  match findFile s fid with
  | none => .error .notFound
  | some _ =>
    let verId := s.nextId
    let v : VersionRec :=
      { id := verId, file_id := fid, version_number := maxVersionNumber s fid + 1,
        storage_pointer := content, llm_params := [] }
    .ok { s with
          files := updFile fid
            (fun f => { f with active_version_id := some verId,
                               status := SpecFileStatus.pending }) s.files,
          versions := s.versions ++ [v],
          events := s.events ++ [("file.replace", fid)],
          nextId := s.nextId + 1 }

/-- Modelled from the spec: softDeleteFile of the missing FileRegistry. -/
def softDeleteFile (s : St) (fid : Nat) (t : Nat) : Except Err St :=
  match findFile s fid with
  | none => .error .notFound
  | some _ =>
    .ok { s with
          files := updFile fid (fun f => { f with deleted_at := some t }) s.files,
          events := s.events ++ [("file.soft_delete", fid)] }

/-- Modelled from the spec: triggerExtraction of the missing
ExtractionCoordinator.  The atomic conditional transition: ConflictError
when the file is already processing, otherwise the status becomes
processing and the asynchronous dispatch returns at once. -/
def triggerExtraction (s : St) (fid : Nat) : Except Err St :=
  match findFile s fid with
  | none => .error .notFound
  | some f =>
    if f.status = SpecFileStatus.processing then .error .conflict
    else
      .ok { s with
            files := updFile fid
              (fun f => { f with status := SpecFileStatus.processing }) s.files,
            events := s.events ++ [("extraction.trigger", fid)] }

/-- One table of the external extraction service's success payload. -/
structure ServiceTable where
  page_number : Nat
  table_index : Nat
  headers : List (List String)
  rows : List (List String)
deriving DecidableEq, Repr

/-- Success payload of the external Document Extraction Service. -/
structure ExtractionResult where
  page_count : Nat
  tables : List ServiceTable
deriving DecidableEq, Repr

/-- Look a key up in an llm_params bag. -/
def lookupKey (k : String) : List (String × Nat) → Option Nat
  | [] => none
  | kv :: rest => if kv.1 == k then some kv.2 else lookupKey k rest

/-- Set a key in an llm_params bag, replacing an existing binding. -/
def setKey (k : String) (v : Nat) : List (String × Nat) → List (String × Nat)
  | [] => [(k, v)]
  | kv :: rest => if kv.1 == k then (k, v) :: rest else kv :: setKey k v rest

/-- The backend's metadata write (testing guide, parse_with_azure lines
291-300): metadata = llm_params or empty, then the page_count and
table_count keys are set. -/
def applyExtractionMetadata (pageCount tableCount : Nat)
    (params : List (String × Nat)) : List (String × Nat) :=
  setKey "table_count" tableCount (setKey "page_count" pageCount params)

/-- The extraction metadata of a version as read back from the bag. -/
def extractionMetadata (s : St) (vid : Nat) : Option (Option Nat × Option Nat) :=
  (findVersion s vid).map
    (fun v => (lookupKey "page_count" v.llm_params, lookupKey "table_count" v.llm_params))

/-- Build FileTable rows from the service payload, in service order. -/
def mkTables (vid : Nat) (nid : Nat) : List ServiceTable → List TableRec
  | [] => []
  | t :: ts =>
      { id := nid, version_id := vid, page_number := t.page_number,
        table_index := t.table_index, headers := t.headers, rows := t.rows }
        :: mkTables vid (nid + 1) ts

/-- Modelled from the spec: extraction-completion handler of the missing
ExtractionCoordinator.  Persists the metadata onto the active version,
deletes and reinserts the FileTable rows of that version in service order
and marks the file completed. -/
def completeExtraction (s : St) (fid : Nat) (res : ExtractionResult) : Except Err St :=
  match findFile s fid with
  | none => .error .notFound
  | some f =>
    if f.status = SpecFileStatus.processing then
      match f.active_version_id with
      | none => .error .precondition
      | some vid =>
        .ok { s with
              versions := updVersion vid
                (fun v => { v with llm_params :=
                  applyExtractionMetadata res.page_count res.tables.length v.llm_params })
                s.versions,
              tables := s.tables.filter (fun t => t.version_id != vid)
                          ++ mkTables vid s.nextId res.tables,
              files := updFile fid
                (fun f => { f with status := SpecFileStatus.completed }) s.files,
              events := s.events ++ [("extraction.complete", fid)],
              nextId := s.nextId + res.tables.length }
    else .error .invalidState

/-- The FileTable rows of one version, in store order. -/
def tablesOfVersion (s : St) (vid : Nat) : List TableRec :=
  s.tables.filter (fun t => t.version_id == vid)

/-- A table is covered when some non-deleted job references it. -/
def hasActiveJob (s : St) (tid : Nat) : Bool :=
  s.jobs.any (fun j => j.table_id == tid && !j.deleted)

/-- Build one not_started job per given table. -/
def mkJobs (pid : Nat) (nid : Nat) : List TableRec → List JobRec
  | [] => []
  | t :: ts =>
      { id := nid, project_id := pid, table_id := t.id, status := JobStatus.not_started,
        revision_count := 0, deleted := false } :: mkJobs pid (nid + 1) ts

/-- Modelled from the spec: bulkCreateJobs of the missing
AnnotationOrchestrator.  PreconditionError unless the file is completed;
creates one not_started job per table of the active version lacking a
non-deleted job.  Returns the number of jobs created. -/
def bulkCreateJobs (s : St) (fid : Nat) : Except Err (St × Nat) :=
  match findFile s fid with
  | none => .error .notFound
  | some f =>
    if f.status = SpecFileStatus.completed then
      match f.active_version_id with
      | none => .error .precondition
      | some vid =>
        let uncovered := (tablesOfVersion s vid).filter (fun t => !(hasActiveJob s t.id))
        let newJobs := mkJobs f.project_id s.nextId uncovered
        .ok ({ s with
               jobs := s.jobs ++ newJobs,
               events := s.events ++ [("jobs.bulk_create", fid)],
               nextId := s.nextId + newJobs.length }, newJobs.length)
    else .error .precondition

/-- Modelled from the spec: review of the missing AnnotationOrchestrator.
InvalidStateError unless the job is submitted; approval makes the job
reviewed (terminal), rejection returns it to in_progress and increments
revision_count; every call appends a fresh Review row. -/
def review (s : St) (jid reviewerId : Nat) (decision : ReviewDecision)
    (comment : String) : Except Err St :=
  match findJob s jid with
  | none => .error .notFound
  | some j =>
    if j.status = JobStatus.submitted then
      let row : ReviewRec :=
        { id := s.nextId, job_id := jid, reviewer_id := reviewerId,
          status := match decision with
                    | ReviewDecision.approved => ReviewStatus.approved
                    | ReviewDecision.rejected => ReviewStatus.rejected,
          comment := comment }
      match decision with
      | ReviewDecision.approved =>
        .ok { s with
              jobs := updJob jid (fun j => { j with status := JobStatus.reviewed }) s.jobs,
              reviews := s.reviews ++ [row],
              events := s.events ++ [("job.review", jid)],
              nextId := s.nextId + 1 }
      | ReviewDecision.rejected =>
        .ok { s with
              jobs := updJob jid
                (fun j => { j with status := JobStatus.in_progress,
                                   revision_count := j.revision_count + 1 }) s.jobs,
              reviews := s.reviews ++ [row],
              events := s.events ++ [("job.review", jid)],
              nextId := s.nextId + 1 }
    else .error .invalidState

/-- The active-version ids of the project's live files: non-null
active_version_id and deleted_at null. -/
def activeVersionIds (s : St) (pid : Nat) : List Nat :=
  s.files.filterMap (fun f =>
    if f.project_id == pid && f.deleted_at.isNone then f.active_version_id else none)

/-- The project's files that qualify for an export snapshot. -/
def exportableFiles (s : St) (pid : Nat) : List FileRec :=
  s.files.filter (fun f =>
    f.project_id == pid && f.deleted_at.isNone && f.active_version_id.isSome)

/-- Modelled from the spec: createExport of the missing ExportCoordinator.
Creates the pending ExportLog and one ExportedFile snapshot row per live
file with an active version, at this instant. -/
def createExport (s : St) (pid : Nat) (format : String) : St × Nat :=
  let eid := s.nextId
  let rows := (activeVersionIds s pid).map
    (fun vid => ({ export_id := eid, file_version_id := vid } : ExportedFileRec))
  ({ s with
     exports := s.exports ++
       [{ id := eid, project_id := pid, format := format, status := ExportStatus.pending }],
     exported_files := s.exported_files ++ rows,
     events := s.events ++ [("export.create", eid)],
     nextId := s.nextId + 1 }, eid)

end Pipeline

namespace CodeModel

/-- The FileStatus enum exactly as the setup notes declare it for the
backend's enums module: pending, ready_for_annotation, in_progress,
completed, archived. -/
inductive CodeFileStatus
  | pending
  | ready_for_annotation
  | in_progress
  | completed
  | archived
deriving DecidableEq, Repr

/-- The string value of each enum member. -/
def CodeFileStatus.str : CodeFileStatus → String
  | CodeFileStatus.pending => "pending"
  | CodeFileStatus.ready_for_annotation => "ready_for_annotation"
  | CodeFileStatus.in_progress => "in_progress"
  | CodeFileStatus.completed => "completed"
  | CodeFileStatus.archived => "archived"

/-- The File.status transition the testing guide documents for the parse
flow: the status changes from in_progress to completed. -/
def observedFileTransitions : List (CodeFileStatus × CodeFileStatus) :=
  [(CodeFileStatus.in_progress, CodeFileStatus.completed)]

/-- The five status strings the code's enum admits. -/
def codeFileStatusStrings : List String :=
  ["pending", "ready_for_annotation", "in_progress", "completed", "archived"]

/-- The four status strings the specification claims for File.status. -/
def claimedFileStatusStrings : List String :=
  ["pending", "processing", "completed", "failed"]

/-- The transition edges the specification claims as the only ones. -/
def claimedFileEdges : List (String × String) :=
  [("pending", "processing"), ("processing", "completed"), ("processing", "failed"),
   ("completed", "processing"), ("failed", "processing")]

end CodeModel

namespace Middleware

/-- Outcome of the Next.js middleware on a matched request: pass the
request through or redirect to /login. -/
inductive MwResponse
  | next
  | redirectLogin
deriving DecidableEq, Repr

/-- Character-level model of String.startsWith: the first list is the
pattern tested against the front of the second. -/
def startsWithL : List Char → List Char → Bool
  | [], _ => true
  | _ :: _, [] => false
  | a :: as, b :: bs => a == b && startsWithL as bs

/-- Guarded path beginnings of the middleware, as character lists. -/
def sysPath : List Char := "/console/system".data

/-- Guarded path beginning for the org console. -/
def orgPath : List Char := "/console/org".data

/-- Guarded path beginning for the project console. -/
def projPath : List Char := "/console/project".data

/-- Guarded path beginning for annotators. -/
def annotPath : List Char := "/annotator".data

/-- Guarded path beginning for QA. -/
def qaPath : List Char := "/qa".data

/-- The middleware function: absent token redirects to /login; otherwise
the role guards run as the source's if/else chain over the pathname, and
an unguarded path passes through. -/
def middleware (token : Option (List String)) (path : List Char) : MwResponse :=
  match token with
  | none => MwResponse.redirectLogin
  | some roles =>
    if startsWithL sysPath path then
      if roles.contains "SYSTEM_ADMIN" then MwResponse.next else MwResponse.redirectLogin
    else if startsWithL orgPath path then
      if roles.contains "ORG_ADMIN" then MwResponse.next else MwResponse.redirectLogin
    else if startsWithL projPath path then
      if roles.contains "PM" then MwResponse.next else MwResponse.redirectLogin
    else if startsWithL annotPath path then
      if roles.contains "ANNOTATOR" then MwResponse.next else MwResponse.redirectLogin
    else if startsWithL qaPath path then
      if roles.contains "QA" then MwResponse.next else MwResponse.redirectLogin
    else MwResponse.next

end Middleware

namespace Pipeline

/-- The owning file id recorded on a version, when the version exists. -/
def versionOwner (s : St) (vid : Nat) : Option Nat :=
  (findVersion s vid).map (fun v => v.file_id)

/-- Referential consistency: every non-null active_version_id points at a
version whose file_id is the pointing file's id. -/
def refInvB (s : St) : Bool :=
  s.files.all (fun f =>
    match f.active_version_id with
    | none => true
    | some vid => versionOwner s vid == some f.id)

/-- Freshness of the id counter over files, their active pointers and
versions. -/
def idBoundB (s : St) : Bool :=
  (s.files.all (fun f =>
    decide (f.id < s.nextId) &&
    (match f.active_version_id with
     | none => true
     | some vid => decide (vid < s.nextId)))) &&
  (s.versions.all (fun v => decide (v.id < s.nextId)))

/-- The empty database state. -/
def emptySt : St :=
  { files := [], versions := [], tables := [], jobs := [], reviews := [],
    exports := [], exported_files := [], events := [], nextId := 0 }

/-- Example file: pending, with active version 2. -/
def fTrig : FileRec :=
  { id := 1, project_id := 1, name := "a.pdf", status := SpecFileStatus.pending,
    active_version_id := some 2, deleted_at := none, failure_reason := none }

/-- Example state: one pending file with one version. -/
def exTrig : St :=
  { files := [fTrig],
    versions := [{ id := 2, file_id := 1, version_number := 1,
                   storage_pointer := 0, llm_params := [] }],
    tables := [], jobs := [], reviews := [], exports := [], exported_files := [],
    events := [], nextId := 3 }

/-- Example state: a soft-deleted file named report.pdf in project 1. -/
def exS8 : St :=
  { files := [{ id := 1, project_id := 1, name := "report.pdf",
                status := SpecFileStatus.pending, active_version_id := some 2,
                deleted_at := some 5, failure_reason := none }],
    versions := [{ id := 2, file_id := 1, version_number := 1,
                   storage_pointer := 0, llm_params := [] }],
    tables := [], jobs := [], reviews := [], exports := [], exported_files := [],
    events := [], nextId := 3 }

/-- Example job in the submitted state. -/
def jSub : JobRec :=
  { id := 1, project_id := 1, table_id := 5, status := JobStatus.submitted,
    revision_count := 0, deleted := false }

/-- Example state holding one submitted job. -/
def exSub : St :=
  { files := [], versions := [], tables := [], jobs := [jSub], reviews := [],
    exports := [], exported_files := [], events := [], nextId := 7 }

/-- Example state: three live files with active versions in project 1, one
soft-deleted file and one file without a version. -/
def exExp : St :=
  { files :=
      [{ id := 1, project_id := 1, name := "a.pdf", status := SpecFileStatus.completed,
         active_version_id := some 11, deleted_at := none, failure_reason := none },
       { id := 2, project_id := 1, name := "b.pdf", status := SpecFileStatus.completed,
         active_version_id := some 12, deleted_at := none, failure_reason := none },
       { id := 3, project_id := 1, name := "c.pdf", status := SpecFileStatus.completed,
         active_version_id := some 13, deleted_at := none, failure_reason := none },
       { id := 4, project_id := 1, name := "d.pdf", status := SpecFileStatus.completed,
         active_version_id := some 14, deleted_at := some 2, failure_reason := none },
       { id := 5, project_id := 1, name := "e.pdf", status := SpecFileStatus.pending,
         active_version_id := none, deleted_at := none, failure_reason := none }],
    versions :=
      [{ id := 11, file_id := 1, version_number := 1, storage_pointer := 0, llm_params := [] },
       { id := 12, file_id := 2, version_number := 1, storage_pointer := 0, llm_params := [] },
       { id := 13, file_id := 3, version_number := 1, storage_pointer := 0, llm_params := [] },
       { id := 14, file_id := 4, version_number := 1, storage_pointer := 0, llm_params := [] }],
    tables := [], jobs := [], reviews := [], exports := [], exported_files := [],
    events := [], nextId := 20 }

/-- The state exExp right after creating an export for project 1. -/
def exExpAfter : St := (createExport exExp 1 "json").1

/-- The state exExpAfter right after replacing file 1's content. -/
def exExpReplaced : St := (replaceFile exExpAfter 1 99).toOption.getD emptySt

/-- Example file under extraction: processing, active version 2. -/
def fCmp : FileRec :=
  { id := 1, project_id := 1, name := "a.pdf", status := SpecFileStatus.processing,
    active_version_id := some 2, deleted_at := none, failure_reason := none }

/-- Example state mid-extraction: the active version already carries stale
metadata and one stale FileTable row (a prior extraction produced one
table), plus a row of an unrelated version. -/
def exCmp : St :=
  { files := [fCmp],
    versions := [{ id := 2, file_id := 1, version_number := 1, storage_pointer := 0,
                   llm_params := [("page_count", 9), ("other", 3)] }],
    tables := [{ id := 5, version_id := 2, page_number := 1, table_index := 0,
                 headers := [], rows := [] },
               { id := 6, version_id := 9, page_number := 4, table_index := 0,
                 headers := [], rows := [] }],
    jobs := [], reviews := [], exports := [], exported_files := [],
    events := [], nextId := 10 }

/-- Example service payload: two tables on pages 3 and 7. -/
def resCmp : ExtractionResult :=
  { page_count := 15,
    tables := [{ page_number := 3, table_index := 0, headers := [], rows := [] },
               { page_number := 7, table_index := 0, headers := [], rows := [] }] }

/-- Example completed file for bulk job creation: active version 2. -/
def fBulk : FileRec :=
  { id := 1, project_id := 1, name := "a.pdf", status := SpecFileStatus.completed,
    active_version_id := some 2, deleted_at := none, failure_reason := none }

/-- Example state: a completed file whose active version has three tables
(and an unrelated version has one), with no jobs yet. -/
def exBulk : St :=
  { files := [fBulk],
    versions := [{ id := 2, file_id := 1, version_number := 1,
                   storage_pointer := 0, llm_params := [] }],
    tables := [{ id := 10, version_id := 2, page_number := 1, table_index := 0,
                 headers := [], rows := [] },
               { id := 11, version_id := 2, page_number := 2, table_index := 0,
                 headers := [], rows := [] },
               { id := 12, version_id := 2, page_number := 2, table_index := 1,
                 headers := [], rows := [] },
               { id := 13, version_id := 9, page_number := 1, table_index := 0,
                 headers := [], rows := [] }],
    jobs := [], reviews := [], exports := [], exported_files := [],
    events := [], nextId := 20 }

/-- The state reached from exTrig by creating a second file. -/
def exS9Created : St := (createFile exTrig 1 "b.pdf" 9).toOption.getD emptySt

/-- Propositional form of refInvB. -/
def RefInvP (s : St) : Prop :=
  ∀ f ∈ s.files, ∀ vid, f.active_version_id = some vid → versionOwner s vid = some f.id

/-- Propositional form of idBoundB. -/
def IdBoundP (s : St) : Prop :=
  (∀ f ∈ s.files, f.id < s.nextId ∧ ∀ vid, f.active_version_id = some vid → vid < s.nextId) ∧
  (∀ v ∈ s.versions, v.id < s.nextId)

theorem find?_if_upd {α : Type} (idOf : α → Nat) (key : Nat) (g : α → α)
    (hg : ∀ x, idOf (g x) = idOf x) (l : List α) :
    (l.map (fun x => if idOf x == key then g x else x)).find? (fun x => idOf x == key) =
      (l.find? (fun x => idOf x == key)).map g := by
  rw [List.find?_map]
  have hp : ((fun x => idOf x == key) ∘ (fun x => if idOf x == key then g x else x)) =
      (fun x => idOf x == key) := by
    funext x
    by_cases hx : (idOf x == key) = true
    · show (idOf (if idOf x == key then g x else x) == key) = (idOf x == key)
      rw [if_pos hx, hg]
    · show (idOf (if idOf x == key then g x else x) == key) = (idOf x == key)
      rw [if_neg hx]
  rw [hp]
  cases hfind : l.find? (fun x => idOf x == key) with
  | none => rfl
  | some a =>
    have ha := List.find?_some hfind
    show some (if idOf a == key then g a else a) = some (g a)
    rw [if_pos ha]

theorem find?_if_upd_pres {α : Type} (idOf sel : α → Nat) (key x : Nat) (g : α → α)
    (hid : ∀ v, idOf (g v) = idOf v) (hsel : ∀ v, sel (g v) = sel v) (l : List α) :
    ((l.map (fun v => if idOf v == key then g v else v)).find?
        (fun v => idOf v == x)).map sel =
      (l.find? (fun v => idOf v == x)).map sel := by
  rw [List.find?_map]
  have hp : ((fun v => idOf v == x) ∘ (fun v => if idOf v == key then g v else v)) =
      (fun v => idOf v == x) := by
    funext v
    by_cases hv : (idOf v == key) = true
    · show (idOf (if idOf v == key then g v else v) == x) = (idOf v == x)
      rw [if_pos hv, hid]
    · show (idOf (if idOf v == key then g v else v) == x) = (idOf v == x)
      rw [if_neg hv]
  rw [hp]
  cases hfind : l.find? (fun v => idOf v == x) with
  | none => rfl
  | some a =>
    show some (sel (if idOf a == key then g a else a)) = some (sel a)
    by_cases ha : (idOf a == key) = true
    · rw [if_pos ha, hsel]
    · rw [if_neg ha]

theorem mkJobs_length (pid nid : Nat) (ts : List TableRec) :
    (mkJobs pid nid ts).length = ts.length := by
  induction ts generalizing nid with
  | nil => rfl
  | cons t ts ih => simp [mkJobs, ih]

theorem mkJobs_mem (pid nid : Nat) (ts : List TableRec) :
    ∀ j ∈ mkJobs pid nid ts,
      j.status = JobStatus.not_started ∧ j.deleted = false ∧ j.project_id = pid := by
  induction ts generalizing nid with
  | nil => intro j hj; simp [mkJobs] at hj
  | cons t ts ih =>
    intro j hj
    simp only [mkJobs, List.mem_cons] at hj
    rcases hj with hj | hj
    · subst hj; exact ⟨rfl, rfl, rfl⟩
    · exact ih (nid + 1) j hj

theorem mkJobs_covers (pid nid : Nat) (ts : List TableRec) :
    ∀ t ∈ ts, ∃ j ∈ mkJobs pid nid ts,
      j.table_id = t.id ∧ j.deleted = false ∧ j.status = JobStatus.not_started := by
  induction ts generalizing nid with
  | nil => intro t ht; simp at ht
  | cons t0 ts ih =>
    intro t ht
    simp only [List.mem_cons] at ht
    rcases ht with ht | ht
    · subst ht
      exact ⟨_, List.mem_cons_self _ _, rfl, rfl, rfl⟩
    · obtain ⟨j, hjm, hj⟩ := ih (nid + 1) t ht
      exact ⟨j, List.mem_cons_of_mem _ hjm, hj⟩

theorem mkTables_version (vid nid : Nat) (ts : List ServiceTable) :
    ∀ t ∈ mkTables vid nid ts, t.version_id = vid := by
  induction ts generalizing nid with
  | nil => intro t ht; simp [mkTables] at ht
  | cons t0 ts ih =>
    intro t ht
    simp only [mkTables, List.mem_cons] at ht
    rcases ht with ht | ht
    · subst ht; rfl
    · exact ih (nid + 1) t ht

theorem mkTables_length (vid nid : Nat) (ts : List ServiceTable) :
    (mkTables vid nid ts).length = ts.length := by
  induction ts generalizing nid with
  | nil => rfl
  | cons t ts ih => simp [mkTables, ih]

theorem mkTables_keys (vid nid : Nat) (ts : List ServiceTable) :
    (mkTables vid nid ts).map (fun t => (t.page_number, t.table_index)) =
      ts.map (fun t => (t.page_number, t.table_index)) := by
  induction ts generalizing nid with
  | nil => rfl
  | cons t ts ih => simp [mkTables, ih]

theorem lookupKey_setKey_same (k : String) (v : Nat) (l : List (String × Nat)) :
    lookupKey k (setKey k v l) = some v := by
  induction l with
  | nil => simp [setKey, lookupKey]
  | cons kv rest ih =>
    by_cases h : kv.1 == k
    · simp [setKey, h, lookupKey]
    · simp [setKey, h, lookupKey, ih]

theorem lookupKey_setKey_ne (k k' : String) (hk : (k' == k) = false) (v : Nat)
    (l : List (String × Nat)) :
    lookupKey k (setKey k' v l) = lookupKey k l := by
  induction l with
  | nil => simp [setKey, lookupKey, hk]
  | cons kv rest ih =>
    by_cases h : kv.1 == k'
    · have h1 : kv.1 = k' := eq_of_beq h
      have h2 : (kv.1 == k) = false := by rw [h1]; exact hk
      simp [setKey, h, lookupKey, h2, hk]
    · by_cases h3 : kv.1 == k
      · simp [setKey, h, lookupKey, h3]
      · simp [setKey, h, lookupKey, h3, ih]

theorem meta_after_apply (p t : Nat) (params : List (String × Nat)) :
    lookupKey "page_count" (applyExtractionMetadata p t params) = some p ∧
    lookupKey "table_count" (applyExtractionMetadata p t params) = some t := by
  constructor
  · unfold applyExtractionMetadata
    rw [lookupKey_setKey_ne "page_count" "table_count" (by decide)]
    exact lookupKey_setKey_same _ _ _
  · exact lookupKey_setKey_same _ _ _

theorem filterMap_active_length (l : List FileRec) (pid : Nat) :
    (l.filterMap (fun f =>
        if f.project_id == pid && f.deleted_at.isNone then f.active_version_id else none)).length =
      (l.filter (fun f =>
        f.project_id == pid && f.deleted_at.isNone && f.active_version_id.isSome)).length := by
  induction l with
  | nil => rfl
  | cons f fs ih =>
    by_cases hc : (f.project_id == pid && f.deleted_at.isNone) = true
    · cases hv : f.active_version_id with
      | none => simp_all [List.filterMap_cons, List.filter_cons]
      | some vid => simp_all [List.filterMap_cons, List.filter_cons]
    · simp_all [List.filterMap_cons, List.filter_cons]

end Pipeline

namespace Middleware

theorem startsWithL_total (a b p : List Char) (ha : startsWithL a p = true)
    (hb : startsWithL b p = true) :
    startsWithL a b = true ∨ startsWithL b a = true := by
  induction p generalizing a b with
  | nil =>
    cases a with
    | nil => left; rfl
    | cons x xs => simp [startsWithL] at ha
  | cons c cs ih =>
    cases a with
    | nil => left; rfl
    | cons x xs =>
      cases b with
      | nil => right; rfl
      | cons y ys =>
        simp only [startsWithL, Bool.and_eq_true, beq_iff_eq] at ha hb ⊢
        obtain ⟨hx, ha'⟩ := ha
        obtain ⟨hy, hb'⟩ := hb
        subst hx
        subst hy
        rcases ih xs ys ha' hb' with h | h
        · exact Or.inl ⟨rfl, h⟩
        · exact Or.inr ⟨rfl, h⟩

theorem guard_excludes (a b p : List Char) (hab : startsWithL a b = false)
    (hba : startsWithL b a = false) (hb : startsWithL b p = true) :
    startsWithL a p = false := by
  cases h : startsWithL a p with
  | false => rfl
  | true =>
    rcases startsWithL_total a b p h hb with hc | hc
    · rw [hab] at hc; exact absurd hc (by simp)
    · rw [hba] at hc; exact absurd hc (by simp)

end Middleware

namespace Middleware

/-- C10: on a matched request, an absent session token yields a redirect to
/login; with a token present, a path beginning with /console/system,
/console/org, /console/project, /annotator or /qa passes through
(NextResponse.next) exactly when the token's roles contain SYSTEM_ADMIN,
ORG_ADMIN, PM, ANNOTATOR or QA respectively, and redirects to /login
otherwise. -/
theorem middleware_guards (path : List Char) (roles : List String) :
    middleware none path = MwResponse.redirectLogin ∧
    (startsWithL sysPath path = true →
      middleware (some roles) path =
        (if roles.contains "SYSTEM_ADMIN" then MwResponse.next else MwResponse.redirectLogin)) ∧
    (startsWithL orgPath path = true →
      middleware (some roles) path =
        (if roles.contains "ORG_ADMIN" then MwResponse.next else MwResponse.redirectLogin)) ∧
    (startsWithL projPath path = true →
      middleware (some roles) path =
        (if roles.contains "PM" then MwResponse.next else MwResponse.redirectLogin)) ∧
    (startsWithL annotPath path = true →
      middleware (some roles) path =
        (if roles.contains "ANNOTATOR" then MwResponse.next else MwResponse.redirectLogin)) ∧
    (startsWithL qaPath path = true →
      middleware (some roles) path =
        (if roles.contains "QA" then MwResponse.next else MwResponse.redirectLogin)) := by
  refine ⟨rfl, ?_, ?_, ?_, ?_, ?_⟩
  · intro h
    simp [middleware, h]
  · intro h
    have h1 := guard_excludes sysPath orgPath path (by decide) (by decide) h
    simp [middleware, h, h1]
  · intro h
    have h1 := guard_excludes sysPath projPath path (by decide) (by decide) h
    have h2 := guard_excludes orgPath projPath path (by decide) (by decide) h
    simp [middleware, h, h1, h2]
  · intro h
    have h1 := guard_excludes sysPath annotPath path (by decide) (by decide) h
    have h2 := guard_excludes orgPath annotPath path (by decide) (by decide) h
    have h3 := guard_excludes projPath annotPath path (by decide) (by decide) h
    simp [middleware, h, h1, h2, h3]
  · intro h
    have h1 := guard_excludes sysPath qaPath path (by decide) (by decide) h
    have h2 := guard_excludes orgPath qaPath path (by decide) (by decide) h
    have h3 := guard_excludes projPath qaPath path (by decide) (by decide) h
    have h4 := guard_excludes annotPath qaPath path (by decide) (by decide) h
    simp [middleware, h, h1, h2, h3, h4]

/-- C10 witness: the guards evaluated on concrete requests. -/
theorem middleware_guards_witness :
    middleware (some ["QA"]) "/qa/tasks".data = MwResponse.next ∧
    middleware (some ["ANNOTATOR"]) "/qa/tasks".data = MwResponse.redirectLogin ∧
    middleware none "/console/project/1".data = MwResponse.redirectLogin := by
  refine ⟨?_, ?_, ?_⟩
  · exact ((middleware_guards "/qa/tasks".data ["QA"]).2.2.2.2.2 (by decide)).trans (by decide)
  · exact ((middleware_guards "/qa/tasks".data ["ANNOTATOR"]).2.2.2.2.2
      (by decide)).trans (by decide)
  · exact (middleware_guards "/console/project/1".data []).1

end Middleware

namespace CodeModel

/-- C3 counterexample: the code's FileStatus enum contains in_progress,
the parse flow's documented pre-completion state, yet in_progress is not
among the four status values the claim allows, and the observed
in_progress to completed transition is none of the claimed edges. -/
theorem fileStatus_claim_counterexample :
    (CodeFileStatus.in_progress, CodeFileStatus.completed) ∈ observedFileTransitions ∧
    CodeFileStatus.in_progress.str ∉ claimedFileStatusStrings ∧
    (CodeFileStatus.in_progress.str, CodeFileStatus.completed.str) ∉ claimedFileEdges := by
  refine ⟨?_, ?_, ?_⟩ <;> decide

/-- C3 amended: every File status value is one of the five members of the
code's FileStatus enum (pending, ready_for_annotation, in_progress,
completed, archived), and the transition the sources document is
in_progress to completed. -/
theorem fileStatus_amended (s : CodeFileStatus) :
    s.str ∈ codeFileStatusStrings ∧
    ∀ e ∈ observedFileTransitions,
      e = (CodeFileStatus.in_progress, CodeFileStatus.completed) := by
  constructor
  · cases s <;> decide
  · decide

/-- C3 amended witness at a concrete status value. -/
theorem fileStatus_amended_witness :
    CodeFileStatus.in_progress.str ∈ codeFileStatusStrings :=
  (fileStatus_amended CodeFileStatus.in_progress).1

end CodeModel

namespace Pipeline

/-- C5: for an existing file, triggerExtraction fails with ConflictError
exactly when the file's status is processing at the time of the call; from
any other status it transitions the file to processing and leaves every
other store untouched, returning at once. -/
theorem triggerExtraction_spec (s : St) (fid : Nat) (f : FileRec)
    (hf : findFile s fid = some f) :
    (triggerExtraction s fid = Except.error Err.conflict ↔
      f.status = SpecFileStatus.processing) ∧
    (f.status ≠ SpecFileStatus.processing →
      ∃ s', triggerExtraction s fid = Except.ok s' ∧
        findFile s' fid = some { f with status := SpecFileStatus.processing } ∧
        s'.versions = s.versions ∧ s'.tables = s.tables ∧ s'.jobs = s.jobs ∧
        s'.reviews = s.reviews ∧ s'.exported_files = s.exported_files) := by
  have hred : triggerExtraction s fid =
      (if f.status = SpecFileStatus.processing then Except.error Err.conflict
       else Except.ok { s with
         files := updFile fid
           (fun f => { f with status := SpecFileStatus.processing }) s.files,
         events := s.events ++ [("extraction.trigger", fid)] }) := by
    unfold triggerExtraction
    rw [hf]
  constructor
  · constructor
    · intro h
      by_contra hns
      rw [hred, if_neg hns] at h
      exact Except.noConfusion h
    · intro h
      rw [hred, if_pos h]
  · intro hns
    rw [hred, if_neg hns]
    refine ⟨_, rfl, ?_, rfl, rfl, rfl, rfl, rfl⟩
    show (updFile fid (fun g0 => { g0 with status := SpecFileStatus.processing })
        s.files).find? (fun x => x.id == fid) =
      some { f with status := SpecFileStatus.processing }
    unfold updFile
    rw [find?_if_upd (fun x : FileRec => x.id) fid
      (fun g0 => { g0 with status := SpecFileStatus.processing }) (fun _ => rfl) s.files]
    unfold findFile at hf
    rw [hf]
    rfl

/-- C5 witness: triggering extraction on the concrete pending file. -/
theorem triggerExtraction_spec_witness :
    ∃ s', triggerExtraction exTrig 1 = Except.ok s' ∧
      findFile s' 1 = some { fTrig with status := SpecFileStatus.processing } ∧
      s'.versions = exTrig.versions ∧ s'.tables = exTrig.tables ∧
      s'.jobs = exTrig.jobs ∧ s'.reviews = exTrig.reviews ∧
      s'.exported_files = exTrig.exported_files :=
  (triggerExtraction_spec exTrig 1 fTrig rfl).2 (by decide)

/-- C8: createFile fails with ConflictError exactly when a non-deleted file
of the same name exists in the project — soft-deleted rows do not block the
name — and on success appends the File with status pending whose
active_version_id points at its own version number 1. -/
theorem createFile_spec (s : St) (pid : Nat) (nm : String) (content : Nat) :
    (createFile s pid nm content = Except.error Err.conflict ↔
      hasActiveName s pid nm = true) ∧
    (hasActiveName s pid nm = false →
      ∃ s' F V, createFile s pid nm content = Except.ok s' ∧
        s'.files = s.files ++ [F] ∧ s'.versions = s.versions ++ [V] ∧
        F.status = SpecFileStatus.pending ∧ F.project_id = pid ∧ F.name = nm ∧
        F.deleted_at = none ∧ F.active_version_id = some V.id ∧
        V.file_id = F.id ∧ V.version_number = 1) := by
  constructor
  · constructor
    · intro h
      cases hx : hasActiveName s pid nm with
      | true => rfl
      | false =>
        unfold createFile at h
        rw [if_neg (by simp [hx])] at h
        exact Except.noConfusion h
    · intro h
      unfold createFile
      rw [if_pos h]
  · intro h
    unfold createFile
    rw [if_neg (by simp [h])]
    exact ⟨_, _, _, rfl, rfl, rfl, rfl, rfl, rfl, rfl, rfl, rfl, rfl⟩

/-- C8 witness: the soft-deleted report.pdf does not block the name, and
creating report.pdf again succeeds with a pending file and version 1. -/
theorem createFile_spec_witness :
    hasActiveName exS8 1 "report.pdf" = false ∧
    (∃ s' F V, createFile exS8 1 "report.pdf" 77 = Except.ok s' ∧
       s'.files = exS8.files ++ [F] ∧ s'.versions = exS8.versions ++ [V] ∧
       F.status = SpecFileStatus.pending ∧ F.project_id = 1 ∧ F.name = "report.pdf" ∧
       F.deleted_at = none ∧ F.active_version_id = some V.id ∧
       V.file_id = F.id ∧ V.version_number = 1) :=
  ⟨by decide, (createFile_spec exS8 1 "report.pdf" 77).2 (by decide)⟩

end Pipeline

namespace Pipeline

/-- C6: on a submitted job, a rejected review returns the job to
in_progress and increments revision_count by exactly one; an approved
review makes the job reviewed, after which every further review call fails
with InvalidStateError; each accepted call appends one new Review row
rather than overwriting prior ones. -/
theorem review_spec (s : St) (jid rid rid2 : Nat) (c c2 : String) (j : JobRec)
    (hj : findJob s jid = some j) (hs : j.status = JobStatus.submitted) :
    (∃ sR, review s jid rid ReviewDecision.rejected c = Except.ok sR ∧
       findJob sR jid = some { j with status := JobStatus.in_progress,
                                      revision_count := j.revision_count + 1 } ∧
       sR.reviews = s.reviews ++
         [{ id := s.nextId, job_id := jid, reviewer_id := rid,
            status := ReviewStatus.rejected, comment := c }]) ∧
    (∃ sA, review s jid rid ReviewDecision.approved c = Except.ok sA ∧
       findJob sA jid = some { j with status := JobStatus.reviewed } ∧
       sA.reviews = s.reviews ++
         [{ id := s.nextId, job_id := jid, reviewer_id := rid,
            status := ReviewStatus.approved, comment := c }] ∧
       ∀ d2, review sA jid rid2 d2 c2 = Except.error Err.invalidState) := by
  have hfind : ∀ (g : JobRec → JobRec), (∀ x, (g x).id = x.id) →
      (updJob jid g s.jobs).find? (fun x => x.id == jid) = some (g j) := by
    intro g hg
    unfold updJob
    rw [find?_if_upd (fun x : JobRec => x.id) jid g hg s.jobs]
    unfold findJob at hj
    rw [hj]
    rfl
  have hevR : review s jid rid ReviewDecision.rejected c =
      Except.ok { s with
        jobs := updJob jid (fun j0 => { j0 with status := JobStatus.in_progress, revision_count := j0.revision_count + 1 }) s.jobs,
        reviews := s.reviews ++
          [{ id := s.nextId, job_id := jid, reviewer_id := rid,
             status := ReviewStatus.rejected, comment := c }],
        events := s.events ++ [("job.review", jid)],
        nextId := s.nextId + 1 } := by
    unfold review
    rw [hj]
    exact if_pos hs
  have hevA : review s jid rid ReviewDecision.approved c =
      Except.ok { s with
        jobs := updJob jid (fun j0 => { j0 with status := JobStatus.reviewed }) s.jobs,
        reviews := s.reviews ++
          [{ id := s.nextId, job_id := jid, reviewer_id := rid,
             status := ReviewStatus.approved, comment := c }],
        events := s.events ++ [("job.review", jid)],
        nextId := s.nextId + 1 } := by
    unfold review
    rw [hj]
    exact if_pos hs
  constructor
  · refine ⟨_, hevR, ?_, rfl⟩
    exact hfind _ (fun _ => rfl)
  · refine ⟨_, hevA, ?_, rfl, ?_⟩
    · exact hfind _ (fun _ => rfl)
    · intro d2
      unfold review
      rw [show findJob { s with jobs := updJob jid (fun j0 => { j0 with status := JobStatus.reviewed }) s.jobs, reviews := s.reviews ++ [{ id := s.nextId, job_id := jid, reviewer_id := rid, status := ReviewStatus.approved, comment := c }], events := s.events ++ [("job.review", jid)], nextId := s.nextId + 1 } jid = some { j with status := JobStatus.reviewed } from hfind _ (fun _ => rfl)]
      exact if_neg (fun hx => JobStatus.noConfusion hx)

/-- C6 witness: the review cycle on the concrete submitted job. -/
theorem review_spec_witness :
    (∃ sR, review exSub 1 4 ReviewDecision.rejected "fix" = Except.ok sR ∧
       findJob sR 1 = some { jSub with status := JobStatus.in_progress,
                                       revision_count := jSub.revision_count + 1 } ∧
       sR.reviews = exSub.reviews ++
         [{ id := exSub.nextId, job_id := 1, reviewer_id := 4,
            status := ReviewStatus.rejected, comment := "fix" }]) ∧
    (∃ sA, review exSub 1 4 ReviewDecision.approved "fix" = Except.ok sA ∧
       findJob sA 1 = some { jSub with status := JobStatus.reviewed } ∧
       sA.reviews = exSub.reviews ++
         [{ id := exSub.nextId, job_id := 1, reviewer_id := 4,
            status := ReviewStatus.approved, comment := "fix" }] ∧
       ∀ d2, review sA 1 8 d2 "again" = Except.error Err.invalidState) :=
  review_spec exSub 1 4 8 "fix" "again" jSub rfl rfl

/-- C7: createExport appends the pending ExportLog and exactly one
ExportedFile snapshot row per project file having a non-null
active_version_id and null deleted_at at the instant of the call, and a
later replaceFile never changes the exported_files store. -/
theorem createExport_spec (s : St) (pid : Nat) (fmt : String) :
    (createExport s pid fmt).2 = s.nextId ∧
    (createExport s pid fmt).1.exports = s.exports ++
      [{ id := s.nextId, project_id := pid, format := fmt,
         status := ExportStatus.pending }] ∧
    (createExport s pid fmt).1.exported_files = s.exported_files ++
      (activeVersionIds s pid).map
        (fun vid => { export_id := s.nextId, file_version_id := vid }) ∧
    (activeVersionIds s pid).length = (exportableFiles s pid).length ∧
    (∀ fid c s'', replaceFile (createExport s pid fmt).1 fid c = Except.ok s'' →
       s''.exported_files = (createExport s pid fmt).1.exported_files) := by
  refine ⟨rfl, rfl, rfl, ?_, ?_⟩
  · exact filterMap_active_length s.files pid
  · intro fid c s'' h
    unfold replaceFile at h
    cases hf : findFile (createExport s pid fmt).1 fid with
    | none => rw [hf] at h; exact Except.noConfusion h
    | some f =>
      rw [hf] at h
      cases h
      rfl

/-- C7 witness: three snapshot rows for the three live files of exExp, and
replacing file 1 afterwards leaves the snapshot unchanged. -/
theorem createExport_spec_witness :
    (createExport exExp 1 "json").1.exported_files = exExp.exported_files ++
      (activeVersionIds exExp 1).map
        (fun vid => { export_id := exExp.nextId, file_version_id := vid }) ∧
    (activeVersionIds exExp 1).length = 3 ∧
    exExpReplaced.exported_files = exExpAfter.exported_files :=
  ⟨(createExport_spec exExp 1 "json").2.2.1, by decide,
   (createExport_spec exExp 1 "json").2.2.2.2 1 99 exExpReplaced (by rfl)⟩

end Pipeline

namespace Pipeline

theorem filter_replaced (old : List TableRec) (vid nid : Nat) (ts : List ServiceTable) :
    (old.filter (fun t => t.version_id != vid) ++ mkTables vid nid ts).filter
      (fun t => t.version_id == vid) = mkTables vid nid ts := by
  rw [List.filter_append]
  have h2 : (old.filter (fun t => t.version_id != vid)).filter
      (fun t => t.version_id == vid) = [] := by
    rw [List.filter_eq_nil_iff]
    intro a ha
    have hne := (List.mem_filter.mp ha).2
    simp only [bne_iff_ne, ne_eq] at hne
    simp only [beq_iff_eq]
    exact hne
  have h3 : (mkTables vid nid ts).filter (fun t => t.version_id == vid) =
      mkTables vid nid ts := by
    rw [List.filter_eq_self]
    intro a ha
    have := mkTables_version vid nid ts a ha
    simp [this]
  rw [h2, h3, List.nil_append]

theorem completeExtraction_ok (s : St) (fid : Nat) (res : ExtractionResult)
    (f : FileRec) (vid : Nat) (hf : findFile s fid = some f)
    (hst : f.status = SpecFileStatus.processing)
    (hv : f.active_version_id = some vid) :
    completeExtraction s fid res = Except.ok { s with
      versions := updVersion vid (fun v => { v with llm_params := applyExtractionMetadata res.page_count res.tables.length v.llm_params }) s.versions,
      tables := s.tables.filter (fun t => t.version_id != vid) ++ mkTables vid s.nextId res.tables,
      files := updFile fid (fun f0 => { f0 with status := SpecFileStatus.completed }) s.files,
      events := s.events ++ [("extraction.complete", fid)],
      nextId := s.nextId + res.tables.length } := by
  have h1 : completeExtraction s fid res =
      (if f.status = SpecFileStatus.processing then
        (match f.active_version_id with
         | none => Except.error Err.precondition
         | some vid0 => Except.ok { s with
             versions := updVersion vid0 (fun v => { v with llm_params := applyExtractionMetadata res.page_count res.tables.length v.llm_params }) s.versions,
             tables := s.tables.filter (fun t => t.version_id != vid0) ++ mkTables vid0 s.nextId res.tables,
             files := updFile fid (fun f0 => { f0 with status := SpecFileStatus.completed }) s.files,
             events := s.events ++ [("extraction.complete", fid)],
             nextId := s.nextId + res.tables.length })
       else Except.error Err.invalidState) := by
    unfold completeExtraction
    rw [hf]
  rw [h1, if_pos hst, hv]

/-- C2: completing extraction on a processing file whose active version is
vid leaves exactly the service's M tables as the FileTable rows of that
version — all prior rows for the version are deleted and the new rows
inserted in service order, keyed by (page_number, table_index) — never an
append of old and new. -/
theorem completeExtraction_tables (s : St) (fid : Nat) (res : ExtractionResult)
    (f : FileRec) (vid : Nat) (hf : findFile s fid = some f)
    (hst : f.status = SpecFileStatus.processing)
    (hv : f.active_version_id = some vid) :
    ∃ s', completeExtraction s fid res = Except.ok s' ∧
      tablesOfVersion s' vid = mkTables vid s.nextId res.tables ∧
      (tablesOfVersion s' vid).length = res.tables.length ∧
      (tablesOfVersion s' vid).map (fun t => (t.page_number, t.table_index)) =
        res.tables.map (fun t => (t.page_number, t.table_index)) := by
  refine ⟨_, completeExtraction_ok s fid res f vid hf hst hv, ?_, ?_, ?_⟩
  · exact filter_replaced s.tables vid s.nextId res.tables
  · show ((s.tables.filter (fun t => t.version_id != vid) ++ mkTables vid s.nextId res.tables).filter (fun t => t.version_id == vid)).length = res.tables.length
    rw [filter_replaced s.tables vid s.nextId res.tables, mkTables_length]
  · show ((s.tables.filter (fun t => t.version_id != vid) ++ mkTables vid s.nextId res.tables).filter (fun t => t.version_id == vid)).map (fun t => (t.page_number, t.table_index)) = res.tables.map (fun t => (t.page_number, t.table_index))
    rw [filter_replaced s.tables vid s.nextId res.tables, mkTables_keys]

/-- C2 witness: re-extraction of the version that previously had one table
with a service result of two tables leaves exactly those two rows. -/
theorem completeExtraction_tables_witness :
    ∃ s', completeExtraction exCmp 1 resCmp = Except.ok s' ∧
      tablesOfVersion s' 2 = mkTables 2 exCmp.nextId resCmp.tables ∧
      (tablesOfVersion s' 2).length = resCmp.tables.length ∧
      (tablesOfVersion s' 2).map (fun t => (t.page_number, t.table_index)) =
        resCmp.tables.map (fun t => (t.page_number, t.table_index)) :=
  completeExtraction_tables exCmp 1 resCmp fCmp 2 rfl rfl rfl

/-- C4: completing extraction writes extraction metadata with exactly the
service's page_count and table count onto the active version, and the
written extraction metadata is a full overwrite — the stored pair never
depends on (is never merged with) the previously stored bag. -/
theorem completeExtraction_metadata (s : St) (fid : Nat) (res : ExtractionResult)
    (f : FileRec) (vid : Nat) (v : VersionRec) (hf : findFile s fid = some f)
    (hst : f.status = SpecFileStatus.processing)
    (hv : f.active_version_id = some vid)
    (hvv : findVersion s vid = some v) :
    ∃ s', completeExtraction s fid res = Except.ok s' ∧
      extractionMetadata s' vid = some (some res.page_count, some res.tables.length) ∧
      (∀ b1 b2 : List (String × Nat),
        (lookupKey "page_count" (applyExtractionMetadata res.page_count res.tables.length b1),
         lookupKey "table_count" (applyExtractionMetadata res.page_count res.tables.length b1)) =
        (lookupKey "page_count" (applyExtractionMetadata res.page_count res.tables.length b2),
         lookupKey "table_count" (applyExtractionMetadata res.page_count res.tables.length b2))) := by
  refine ⟨_, completeExtraction_ok s fid res f vid hf hst hv, ?_, ?_⟩
  · have hfv : (updVersion vid (fun v0 => { v0 with llm_params := applyExtractionMetadata res.page_count res.tables.length v0.llm_params }) s.versions).find? (fun x => x.id == vid) = some { v with llm_params := applyExtractionMetadata res.page_count res.tables.length v.llm_params } := by
      unfold updVersion
      rw [find?_if_upd (fun x : VersionRec => x.id) vid (fun v0 => { v0 with llm_params := applyExtractionMetadata res.page_count res.tables.length v0.llm_params }) (fun _ => rfl) s.versions]
      unfold findVersion at hvv
      rw [hvv]
      rfl
    show ((updVersion vid (fun v0 => { v0 with llm_params := applyExtractionMetadata res.page_count res.tables.length v0.llm_params }) s.versions).find? (fun x => x.id == vid)).map (fun v0 => (lookupKey "page_count" v0.llm_params, lookupKey "table_count" v0.llm_params)) = some (some res.page_count, some res.tables.length)
    rw [hfv]
    show some (lookupKey "page_count" (applyExtractionMetadata res.page_count res.tables.length v.llm_params), lookupKey "table_count" (applyExtractionMetadata res.page_count res.tables.length v.llm_params)) = some (some res.page_count, some res.tables.length)
    rw [(meta_after_apply res.page_count res.tables.length v.llm_params).1,
        (meta_after_apply res.page_count res.tables.length v.llm_params).2]
  · intro b1 b2
    rw [(meta_after_apply res.page_count res.tables.length b1).1,
        (meta_after_apply res.page_count res.tables.length b1).2,
        (meta_after_apply res.page_count res.tables.length b2).1,
        (meta_after_apply res.page_count res.tables.length b2).2]

/-- C4 witness: the stale metadata bag of exCmp's version 2 (page_count 9
plus an unrelated key) is overwritten with page_count 15, table_count 2. -/
theorem completeExtraction_metadata_witness :
    ∃ s', completeExtraction exCmp 1 resCmp = Except.ok s' ∧
      extractionMetadata s' 2 = some (some 15, some 2) ∧
      (∀ b1 b2 : List (String × Nat),
        (lookupKey "page_count" (applyExtractionMetadata 15 2 b1),
         lookupKey "table_count" (applyExtractionMetadata 15 2 b1)) =
        (lookupKey "page_count" (applyExtractionMetadata 15 2 b2),
         lookupKey "table_count" (applyExtractionMetadata 15 2 b2))) :=
  completeExtraction_metadata exCmp 1 resCmp fCmp 2
    { id := 2, file_id := 1, version_number := 1, storage_pointer := 0,
      llm_params := [("page_count", 9), ("other", 3)] } rfl rfl rfl rfl

end Pipeline

namespace Pipeline

theorem bulkCreateJobs_ok (s : St) (fid : Nat) (f : FileRec) (vid : Nat)
    (hf : findFile s fid = some f) (hc : f.status = SpecFileStatus.completed)
    (hv : f.active_version_id = some vid) :
    bulkCreateJobs s fid = Except.ok
      ({ s with jobs := s.jobs ++ mkJobs f.project_id s.nextId ((tablesOfVersion s vid).filter (fun t => !(hasActiveJob s t.id))), events := s.events ++ [("jobs.bulk_create", fid)], nextId := s.nextId + (mkJobs f.project_id s.nextId ((tablesOfVersion s vid).filter (fun t => !(hasActiveJob s t.id)))).length },
       (mkJobs f.project_id s.nextId ((tablesOfVersion s vid).filter (fun t => !(hasActiveJob s t.id)))).length) := by
  have h1 : bulkCreateJobs s fid =
      (if f.status = SpecFileStatus.completed then
        (match f.active_version_id with
         | none => Except.error Err.precondition
         | some vid0 =>
           Except.ok ({ s with jobs := s.jobs ++ mkJobs f.project_id s.nextId ((tablesOfVersion s vid0).filter (fun t => !(hasActiveJob s t.id))), events := s.events ++ [("jobs.bulk_create", fid)], nextId := s.nextId + (mkJobs f.project_id s.nextId ((tablesOfVersion s vid0).filter (fun t => !(hasActiveJob s t.id)))).length },
             (mkJobs f.project_id s.nextId ((tablesOfVersion s vid0).filter (fun t => !(hasActiveJob s t.id)))).length))
       else Except.error Err.precondition) := by
    unfold bulkCreateJobs
    rw [hf]
  rw [h1, if_pos hc, hv]

/-- C1: on a completed file none of whose active-version tables is covered
by a non-deleted job, bulkCreateJobs creates exactly one not_started job
per FileTable of the active version — the table count — every job it adds
is fresh and not_started, and a second call in succession creates zero
jobs: after the first call every table is covered, so re-invocation never
creates a job for a covered table. -/
theorem bulkCreateJobs_idempotent (s : St) (fid : Nat) (f : FileRec) (vid : Nat)
    (hf : findFile s fid = some f) (hc : f.status = SpecFileStatus.completed)
    (hv : f.active_version_id = some vid)
    (hun : (tablesOfVersion s vid).all (fun t => !(hasActiveJob s t.id)) = true) :
    ∃ s1, bulkCreateJobs s fid = Except.ok (s1, (tablesOfVersion s vid).length) ∧
      (∀ t ∈ tablesOfVersion s vid, ∃ j ∈ s1.jobs,
         j.table_id = t.id ∧ j.status = JobStatus.not_started ∧ j.deleted = false) ∧
      (∀ j ∈ s1.jobs, j ∈ s.jobs ∨ (j.status = JobStatus.not_started ∧ j.deleted = false)) ∧
      (∃ s2, bulkCreateJobs s1 fid = Except.ok (s2, 0) ∧ s2.jobs = s1.jobs) := by
  have hall := List.all_eq_true.mp hun
  have hfilter : (tablesOfVersion s vid).filter (fun t => !(hasActiveJob s t.id)) = tablesOfVersion s vid :=
    List.filter_eq_self.mpr (fun a ha => hall a ha)
  refine ⟨{ s with jobs := s.jobs ++ mkJobs f.project_id s.nextId (tablesOfVersion s vid), events := s.events ++ [("jobs.bulk_create", fid)], nextId := s.nextId + (tablesOfVersion s vid).length }, ?_, ?_, ?_, ?_⟩
  · rw [bulkCreateJobs_ok s fid f vid hf hc hv, hfilter, mkJobs_length]
  · intro t ht
    obtain ⟨j, hjm, hjt, hjd, hjs⟩ :=
      mkJobs_covers f.project_id s.nextId (tablesOfVersion s vid) t ht
    exact ⟨j, List.mem_append_right _ hjm, hjt, hjs, hjd⟩
  · intro j hj
    rcases List.mem_append.mp hj with h | h
    · exact Or.inl h
    · obtain ⟨h1, h2, _⟩ := mkJobs_mem f.project_id s.nextId (tablesOfVersion s vid) j h
      exact Or.inr ⟨h1, h2⟩
  · have hun2 : (tablesOfVersion { s with jobs := s.jobs ++ mkJobs f.project_id s.nextId (tablesOfVersion s vid), events := s.events ++ [("jobs.bulk_create", fid)], nextId := s.nextId + (tablesOfVersion s vid).length } vid).filter (fun t => !(hasActiveJob { s with jobs := s.jobs ++ mkJobs f.project_id s.nextId (tablesOfVersion s vid), events := s.events ++ [("jobs.bulk_create", fid)], nextId := s.nextId + (tablesOfVersion s vid).length } t.id)) = [] := by
      rw [List.filter_eq_nil_iff]
      intro t ht
      obtain ⟨j, hjm, hjt, hjd, hjs⟩ :=
        mkJobs_covers f.project_id s.nextId (tablesOfVersion s vid) t ht
      have hq : hasActiveJob { s with jobs := s.jobs ++ mkJobs f.project_id s.nextId (tablesOfVersion s vid), events := s.events ++ [("jobs.bulk_create", fid)], nextId := s.nextId + (tablesOfVersion s vid).length } t.id = true := by
        unfold hasActiveJob
        rw [List.any_eq_true]
        refine ⟨j, List.mem_append_right _ hjm, ?_⟩
        simp [hjt, hjd]
      simp [hq]
    refine ⟨{ { s with jobs := s.jobs ++ mkJobs f.project_id s.nextId (tablesOfVersion s vid), events := s.events ++ [("jobs.bulk_create", fid)], nextId := s.nextId + (tablesOfVersion s vid).length } with jobs := { s with jobs := s.jobs ++ mkJobs f.project_id s.nextId (tablesOfVersion s vid), events := s.events ++ [("jobs.bulk_create", fid)], nextId := s.nextId + (tablesOfVersion s vid).length }.jobs ++ mkJobs f.project_id { s with jobs := s.jobs ++ mkJobs f.project_id s.nextId (tablesOfVersion s vid), events := s.events ++ [("jobs.bulk_create", fid)], nextId := s.nextId + (tablesOfVersion s vid).length }.nextId ((tablesOfVersion { s with jobs := s.jobs ++ mkJobs f.project_id s.nextId (tablesOfVersion s vid), events := s.events ++ [("jobs.bulk_create", fid)], nextId := s.nextId + (tablesOfVersion s vid).length } vid).filter (fun t => !(hasActiveJob { s with jobs := s.jobs ++ mkJobs f.project_id s.nextId (tablesOfVersion s vid), events := s.events ++ [("jobs.bulk_create", fid)], nextId := s.nextId + (tablesOfVersion s vid).length } t.id))), events := { s with jobs := s.jobs ++ mkJobs f.project_id s.nextId (tablesOfVersion s vid), events := s.events ++ [("jobs.bulk_create", fid)], nextId := s.nextId + (tablesOfVersion s vid).length }.events ++ [("jobs.bulk_create", fid)], nextId := { s with jobs := s.jobs ++ mkJobs f.project_id s.nextId (tablesOfVersion s vid), events := s.events ++ [("jobs.bulk_create", fid)], nextId := s.nextId + (tablesOfVersion s vid).length }.nextId + (mkJobs f.project_id { s with jobs := s.jobs ++ mkJobs f.project_id s.nextId (tablesOfVersion s vid), events := s.events ++ [("jobs.bulk_create", fid)], nextId := s.nextId + (tablesOfVersion s vid).length }.nextId ((tablesOfVersion { s with jobs := s.jobs ++ mkJobs f.project_id s.nextId (tablesOfVersion s vid), events := s.events ++ [("jobs.bulk_create", fid)], nextId := s.nextId + (tablesOfVersion s vid).length } vid).filter (fun t => !(hasActiveJob { s with jobs := s.jobs ++ mkJobs f.project_id s.nextId (tablesOfVersion s vid), events := s.events ++ [("jobs.bulk_create", fid)], nextId := s.nextId + (tablesOfVersion s vid).length } t.id)))).length }, ?_, ?_⟩
    · rw [bulkCreateJobs_ok { s with jobs := s.jobs ++ mkJobs f.project_id s.nextId (tablesOfVersion s vid), events := s.events ++ [("jobs.bulk_create", fid)], nextId := s.nextId + (tablesOfVersion s vid).length } fid f vid hf hc hv, hun2]
      rfl
    · rw [show ((tablesOfVersion { s with jobs := s.jobs ++ mkJobs f.project_id s.nextId (tablesOfVersion s vid), events := s.events ++ [("jobs.bulk_create", fid)], nextId := s.nextId + (tablesOfVersion s vid).length } vid).filter (fun t => !(hasActiveJob { s with jobs := s.jobs ++ mkJobs f.project_id s.nextId (tablesOfVersion s vid), events := s.events ++ [("jobs.bulk_create", fid)], nextId := s.nextId + (tablesOfVersion s vid).length } t.id))) = ([] : List TableRec) from hun2]
      exact List.append_nil _

/-- C1 witness: the completed exBulk file with three tables gets exactly
three jobs on the first call and zero on the second. -/
theorem bulkCreateJobs_idempotent_witness :
    (∃ s1, bulkCreateJobs exBulk 1 = Except.ok (s1, (tablesOfVersion exBulk 2).length) ∧
      (∀ t ∈ tablesOfVersion exBulk 2, ∃ j ∈ s1.jobs,
         j.table_id = t.id ∧ j.status = JobStatus.not_started ∧ j.deleted = false) ∧
      (∀ j ∈ s1.jobs, j ∈ exBulk.jobs ∨ (j.status = JobStatus.not_started ∧ j.deleted = false)) ∧
      (∃ s2, bulkCreateJobs s1 1 = Except.ok (s2, 0) ∧ s2.jobs = s1.jobs)) ∧
    (tablesOfVersion exBulk 2).length = 3 :=
  ⟨bulkCreateJobs_idempotent exBulk 1 fBulk 2 rfl rfl rfl (by decide), by decide⟩

end Pipeline

namespace Pipeline

theorem refInvB_iff (s : St) : refInvB s = true ↔ RefInvP s := by
  unfold refInvB RefInvP
  rw [List.all_eq_true]
  constructor
  · intro h f hf vid hv
    have hx := h f hf
    rw [hv] at hx
    exact eq_of_beq hx
  · intro h f hf
    cases hv : f.active_version_id with
    | none => rfl
    | some vid => exact beq_iff_eq.mpr (h f hf vid hv)

theorem idBoundB_iff (s : St) : idBoundB s = true ↔ IdBoundP s := by
  unfold idBoundB IdBoundP
  rw [Bool.and_eq_true, List.all_eq_true, List.all_eq_true]
  constructor
  · intro hx
    obtain ⟨hf1, hv1⟩ := hx
    constructor
    · intro f hf
      have hy := hf1 f hf
      rw [Bool.and_eq_true] at hy
      obtain ⟨ha, hb⟩ := hy
      refine ⟨of_decide_eq_true ha, ?_⟩
      intro vid hv
      rw [hv] at hb
      exact of_decide_eq_true hb
    · intro v hv
      exact of_decide_eq_true (hv1 v hv)
  · intro hx
    obtain ⟨hf1, hv1⟩ := hx
    constructor
    · intro f hf
      rw [Bool.and_eq_true]
      refine ⟨decide_eq_true (hf1 f hf).1, ?_⟩
      cases hv : f.active_version_id with
      | none => rfl
      | some vid => exact decide_eq_true ((hf1 f hf).2 vid hv)
    · intro v hv
      exact decide_eq_true (hv1 v hv)

theorem versionOwner_append_old (vs0 vs : List VersionRec) (vid : Nat) (fidv : Nat)
    (h : (vs0.find? (fun v => v.id == vid)).map (fun v => v.file_id) = some fidv) :
    ((vs0 ++ vs).find? (fun v => v.id == vid)).map (fun v => v.file_id) = some fidv := by
  cases ho : vs0.find? (fun v => v.id == vid) with
  | none => rw [ho] at h; exact absurd h (by simp)
  | some v =>
    rw [ho] at h
    rw [List.find?_append, ho]
    exact h

theorem versionOwner_append_new (vs0 : List VersionRec) (v : VersionRec) (vid : Nat)
    (hnone : ∀ w ∈ vs0, w.id ≠ vid) (hv : v.id = vid) :
    ((vs0 ++ [v]).find? (fun w => w.id == vid)).map (fun w => w.file_id) =
      some v.file_id := by
  have h0 : vs0.find? (fun w => w.id == vid) = none := by
    rw [List.find?_eq_none]
    intro w hw
    simp [hnone w hw]
  rw [List.find?_append, h0]
  simp [List.find?_cons, hv]

end Pipeline

namespace Pipeline

/-- C9: referential consistency — every non-null active_version_id
references a FileVersion whose file_id equals the owning File's id — holds
after createFile, replaceFile and extraction completion whenever it held
before, together with freshness of the id counter; the model keeps the two
foreign keys, File.active_version_id and FileVersion.file_id, as two
distinct independently stored fields. -/
theorem refConsistency_preserved (s : St) (h1 : refInvB s = true)
    (h2 : idBoundB s = true) :
    (∀ pid nm c s', createFile s pid nm c = Except.ok s' →
        refInvB s' = true ∧ idBoundB s' = true) ∧
    (∀ fid c s', replaceFile s fid c = Except.ok s' →
        refInvB s' = true ∧ idBoundB s' = true) ∧
    (∀ fid res s', completeExtraction s fid res = Except.ok s' →
        refInvB s' = true ∧ idBoundB s' = true) := by
  have hR := (refInvB_iff s).mp h1
  have hB := (idBoundB_iff s).mp h2
  refine ⟨?_, ?_, ?_⟩
  · intro pid nm c s' h
    unfold createFile at h
    cases hx : hasActiveName s pid nm with
    | true =>
      rw [if_pos hx] at h
      exact Except.noConfusion h
    | false =>
      rw [if_neg (by simp [hx])] at h
      cases h
      constructor
      · apply (refInvB_iff _).mpr
        intro f hf vid hv
        rcases List.mem_append.mp hf with hfo | hfn
        · exact versionOwner_append_old s.versions [{ id := s.nextId + 1, file_id := s.nextId, version_number := 1, storage_pointer := c, llm_params := [] }] vid f.id (hR f hfo vid hv)
        · have hfF := List.mem_singleton.mp hfn
          subst hfF
          have hvid : s.nextId + 1 = vid := Option.some.inj hv
          subst hvid
          exact versionOwner_append_new s.versions { id := s.nextId + 1, file_id := s.nextId, version_number := 1, storage_pointer := c, llm_params := [] } (s.nextId + 1)
            (fun w hw => by have := hB.2 w hw; omega) rfl
      · apply (idBoundB_iff _).mpr
        constructor
        · intro f hf
          rcases List.mem_append.mp hf with hfo | hfn
          · obtain ⟨ha, hb⟩ := hB.1 f hfo
            refine ⟨?_, ?_⟩
            · show f.id < s.nextId + 2
              omega
            · intro vid hv
              have := hb vid hv
              show vid < s.nextId + 2
              omega
          · have hfF := List.mem_singleton.mp hfn
            subst hfF
            refine ⟨?_, ?_⟩
            · show s.nextId < s.nextId + 2
              omega
            · intro vid hv
              have hvid : s.nextId + 1 = vid := Option.some.inj hv
              show vid < s.nextId + 2
              omega
        · intro v hv
          rcases List.mem_append.mp hv with hvo | hvn
          · have := hB.2 v hvo
            show v.id < s.nextId + 2
            omega
          · have hvV := List.mem_singleton.mp hvn
            subst hvV
            show s.nextId + 1 < s.nextId + 2
            omega
  · intro fid c s' h
    cases hff : findFile s fid with
    | none =>
      unfold replaceFile at h
      rw [hff] at h
      exact Except.noConfusion h
    | some f0 =>
      unfold replaceFile at h
      rw [hff] at h
      cases h
      constructor
      · apply (refInvB_iff _).mpr
        intro f' hf' vid hv
        rcases List.mem_map.mp hf' with ⟨x, hx, hhx⟩
        by_cases hxf : (x.id == fid) = true
        · rw [if_pos hxf] at hhx
          subst hhx
          have hvid : s.nextId = vid := Option.some.inj hv
          subst hvid
          have hxid : x.id = fid := eq_of_beq hxf
          exact (versionOwner_append_new s.versions { id := s.nextId, file_id := fid, version_number := maxVersionNumber s fid + 1, storage_pointer := c, llm_params := [] } s.nextId
            (fun w hw => by have := hB.2 w hw; omega) rfl).trans
            (congrArg some hxid.symm)
        · rw [if_neg hxf] at hhx
          subst hhx
          exact versionOwner_append_old s.versions [{ id := s.nextId, file_id := fid, version_number := maxVersionNumber s fid + 1, storage_pointer := c, llm_params := [] }] vid x.id (hR x hx vid hv)
      · apply (idBoundB_iff _).mpr
        constructor
        · intro f' hf'
          rcases List.mem_map.mp hf' with ⟨x, hx, hhx⟩
          obtain ⟨ha, hb⟩ := hB.1 x hx
          by_cases hxf : (x.id == fid) = true
          · rw [if_pos hxf] at hhx
            subst hhx
            refine ⟨?_, ?_⟩
            · show x.id < s.nextId + 1
              omega
            · intro vid hv
              have hvid : s.nextId = vid := Option.some.inj hv
              show vid < s.nextId + 1
              omega
          · rw [if_neg hxf] at hhx
            subst hhx
            refine ⟨?_, ?_⟩
            · show x.id < s.nextId + 1
              omega
            · intro vid hv
              have := hb vid hv
              show vid < s.nextId + 1
              omega
        · intro v hv
          rcases List.mem_append.mp hv with hvo | hvn
          · have := hB.2 v hvo
            show v.id < s.nextId + 1
            omega
          · have hvV := List.mem_singleton.mp hvn
            subst hvV
            show s.nextId < s.nextId + 1
            omega
  · intro fid res s' h
    cases hff : findFile s fid with
    | none =>
      unfold completeExtraction at h
      rw [hff] at h
      exact Except.noConfusion h
    | some f0 =>
      by_cases hst : f0.status = SpecFileStatus.processing
      · cases hva : f0.active_version_id with
        | none =>
          have hErr : completeExtraction s fid res = Except.error Err.precondition := by
            unfold completeExtraction
            rw [hff]
            exact (if_pos hst).trans (by rw [hva])
          rw [hErr] at h
          exact Except.noConfusion h
        | some vid0 =>
          have hok := completeExtraction_ok s fid res f0 vid0 hff hst hva
          have hs' := Except.ok.inj (hok.symm.trans h)
          subst hs'
          constructor
          · apply (refInvB_iff _).mpr
            intro f' hf' vid hv
            rcases List.mem_map.mp hf' with ⟨x, hx, hhx⟩
            have hact : x.active_version_id = some vid := by
              by_cases hxf : (x.id == fid) = true
              · rw [if_pos hxf] at hhx
                rw [← hv, ← hhx]
              · rw [if_neg hxf] at hhx
                rw [← hv, ← hhx]
            have hid : f'.id = x.id := by
              by_cases hxf : (x.id == fid) = true
              · rw [if_pos hxf] at hhx
                rw [← hhx]
              · rw [if_neg hxf] at hhx
                rw [← hhx]
            show ((updVersion vid0 (fun v => { v with llm_params := applyExtractionMetadata res.page_count res.tables.length v.llm_params }) s.versions).find?
              (fun w => w.id == vid)).map (fun w => w.file_id) = some f'.id
            unfold updVersion
            rw [find?_if_upd_pres (fun v : VersionRec => v.id)
              (fun v : VersionRec => v.file_id) vid0 vid (fun v => { v with llm_params := applyExtractionMetadata res.page_count res.tables.length v.llm_params })
              (fun _ => rfl) (fun _ => rfl) s.versions]
            rw [hid]
            exact hR x hx vid hact
          · apply (idBoundB_iff _).mpr
            constructor
            · intro f' hf'
              rcases List.mem_map.mp hf' with ⟨x, hx, hhx⟩
              obtain ⟨ha, hb⟩ := hB.1 x hx
              have hact : f'.active_version_id = x.active_version_id := by
                by_cases hxf : (x.id == fid) = true
                · rw [if_pos hxf] at hhx
                  rw [← hhx]
                · rw [if_neg hxf] at hhx
                  rw [← hhx]
              have hid : f'.id = x.id := by
                by_cases hxf : (x.id == fid) = true
                · rw [if_pos hxf] at hhx
                  rw [← hhx]
                · rw [if_neg hxf] at hhx
                  rw [← hhx]
              refine ⟨?_, ?_⟩
              · rw [hid]
                show x.id < s.nextId + res.tables.length
                omega
              · intro vid hv
                rw [hact] at hv
                have := hb vid hv
                show vid < s.nextId + res.tables.length
                omega
            · intro v' hv'
              rcases List.mem_map.mp hv' with ⟨w, hw, hhw⟩
              have := hB.2 w hw
              have hid : v'.id = w.id := by
                by_cases hwf : (w.id == vid0) = true
                · rw [if_pos hwf] at hhw
                  rw [← hhw]
                · rw [if_neg hwf] at hhw
                  rw [← hhw]
              rw [hid]
              show w.id < s.nextId + res.tables.length
              omega
      · have hErr : completeExtraction s fid res = Except.error Err.invalidState := by
          unfold completeExtraction
          rw [hff]
          exact if_neg hst
        rw [hErr] at h
        exact Except.noConfusion h

/-- C9 witness: the invariant checkers evaluate to true on exTrig and on
the state reached from it by creating a second file. -/
theorem refConsistency_preserved_witness :
    refInvB exS9Created = true ∧ idBoundB exS9Created = true :=
  (refConsistency_preserved exTrig (by decide) (by decide)).1 1 "b.pdf" 9
    exS9Created (by rfl)

end Pipeline
